import Mathlib

/-!
# POS-ERP: formal model and verification

Part I embeds the Reservation & Allocation Engine specified in `spec.md`
(§3–§5).  The engine itself is not among the repository's source files
(`src/` contains only the payments backend `app.py`), so Part I is modelled
directly from the specification text.

Part II embeds the payments backend `src/app.py` (data model, request
handlers and the card-check helper) and proves the claims that concern that
code.

Machine integers are modelled as `Nat`/`Int`; Python floats are modelled as
`ℚ`; Python strings are modelled as `String` (or `List Char` where the code
inspects individual characters); fallible parsing returns `Option`/`Except`.
-/

namespace POSERP

/-! ## Part I: Reservation & Allocation Engine (modelled from the spec) -/

/-- Modelled from the spec (§3): the reservation lifecycle states
`active`, `expired`, `released`, `committed`. -/
inductive RState where
  | active
  | expired
  | released
  | committed
deriving DecidableEq, Repr

/-- Modelled from the spec (§3): a `Reservation` row of the Ledger Store.
Times are seconds as `Nat`. -/
structure Reservation where
  id : Nat
  article_id : Nat
  cart_id : String
  qty : Nat
  created_at : Nat
  expires_at : Nat
  state : RState
deriving DecidableEq, Repr

/-- Modelled from the spec (§3): an `Article` row — stable id and the
non-negative on-hand stock count. -/
structure Article where
  id : Nat
  on_hand : Nat
deriving DecidableEq, Repr

/-- Modelled from the spec (§2, §3): the engine's state: the configured
TTL, the two Ledger Store tables, and the next fresh reservation id. -/
structure EngineState where
  ttl : Nat
  articles : List Article
  reservations : List Reservation
  nextId : Nat
deriving DecidableEq, Repr

/-- First article with the given id (the Ledger Store lookup). -/
def onHandOf (aid : Nat) : List Article → Option Nat
  | [] => none
  | a :: rest => if a.id = aid then some a.on_hand else onHandOf aid rest

/-- Contribution of one reservation to the availability sum for article
`aid` at time `now`: its qty if it is an active, unexpired reservation of
that article, else 0 (spec §4.1, lazy expiry: `expires_at ≤ now` does not
count). -/
def contrib (aid now : Nat) (r : Reservation) : Nat :=
  if r.article_id = aid ∧ r.state = RState.active ∧ now < r.expires_at then r.qty else 0

/-- Sum of qty over the active, unexpired reservations of article `aid`. -/
def activeSum (aid now : Nat) : List Reservation → Nat
  | [] => 0
  | r :: rest => contrib aid now r + activeSum aid now rest

/-- Modelled from the spec (§4.1): the Availability Calculator.
`none` models `ArticleNotFound`. -/
def available (s : EngineState) (aid now : Nat) : Option Int :=
  (onHandOf aid s.articles).map
    (fun n => (n : Int) - (activeSum aid now s.reservations : Int))

inductive ReserveResult where
  | ok (rid : Nat)
  | rejectedInsufficient (avail : Int)
  | articleNotFound
  | invalidQty
deriving DecidableEq, Repr

/-- Modelled from the spec (§4.2): Reservation Admission Control.  Under the
per-article critical section (sequentialized here), recompute availability;
if `qty ≤ available` insert a new `active` row with `created_at = now` and
`expires_at = now + TTL` and return its id, else reject carrying the current
availability.  Preconditions (`qty > 0`, article exists) are reported as the
taxonomy's `InvalidInput`/`NotFound` errors (§7). -/
def reserve (aid : Nat) (cart : String) (qty now : Nat) (s : EngineState) :
    ReserveResult × EngineState :=
  if qty = 0 then (.invalidQty, s)
  else
    match onHandOf aid s.articles with
    | none => (.articleNotFound, s)
    | some n =>
      let av : Int := (n : Int) - (activeSum aid now s.reservations : Int)
      if (qty : Int) ≤ av then
        (.ok s.nextId,
          { s with
            reservations :=
              ⟨s.nextId, aid, cart, qty, now, now + s.ttl, RState.active⟩ :: s.reservations,
            nextId := s.nextId + 1 })
      else (.rejectedInsufficient av, s)

inductive ReleaseResult where
  | ok
  | notFound
  | alreadyTerminal
deriving DecidableEq, Repr

/-- First reservation with the given id. -/
def findRes (rid : Nat) : List Reservation → Option Reservation
  | [] => none
  | r :: rest => if r.id = rid then some r else findRes rid rest

/-- Transition one row `active → released` (only if currently active). -/
def releaseMark (rid : Nat) (r : Reservation) : Reservation :=
  if r.id = rid ∧ r.state = RState.active then { r with state := RState.released } else r

/-- Modelled from the spec (§4.3): Release — `active → released` if the row
is currently active, `NotFound`/`AlreadyTerminal` otherwise (no-op). -/
def release (rid : Nat) (s : EngineState) : ReleaseResult × EngineState :=
  match findRes rid s.reservations with
  | none => (.notFound, s)
  | some r =>
    if r.state = RState.active then
      (.ok, { s with reservations := s.reservations.map (releaseMark rid) })
    else (.alreadyTerminal, s)

/-- Transition one row `active → expired` when its TTL has elapsed. -/
def sweepMark (now : Nat) (r : Reservation) : Reservation :=
  if r.state = RState.active ∧ r.expires_at ≤ now then { r with state := RState.expired } else r

/-- Modelled from the spec (§4.5): one Expiry Sweeper tick — every `active`
row with `expires_at ≤ now` becomes `expired`. -/
def sweep (now : Nat) (s : EngineState) : EngineState :=
  { s with reservations := s.reservations.map (sweepMark now) }

/-- Decrement on-hand of the article with the given id. -/
def decArt (aid qty : Nat) (a : Article) : Article :=
  if a.id = aid then { a with on_hand := a.on_hand - qty } else a

/-- Transition one row `active → committed` (only if currently active). -/
def commitMark (rid : Nat) (r : Reservation) : Reservation :=
  if r.id = rid ∧ r.state = RState.active then { r with state := RState.committed } else r

/-- The cart's active, unexpired reservations (spec §4.4: lazily expired
rows are treated as absent at checkout). -/
def cartLines (cart : String) (now : Nat) : List Reservation → List Reservation
  | [] => []
  | r :: rest =>
    if r.cart_id = cart ∧ r.state = RState.active ∧ now < r.expires_at then
      r :: cartLines cart now rest
    else cartLines cart now rest

/-- Modelled from the spec (§4.4): process the collected lines in order;
for each, verify `qty ≤ on_hand(article_id)` (the final check is against raw
on-hand, as the spec resolves in §9), then decrement on-hand and mark the
row committed.  `none` models a failed final check (the transaction is then
rolled back by `commit`). -/
def commitLines : List Reservation → EngineState → Option EngineState
  | [], s => some s
  | r :: rest, s =>
    match onHandOf r.article_id s.articles with
    | none => none
    | some n =>
      if r.qty ≤ n then
        commitLines rest
          { s with
            articles := s.articles.map (decArt r.article_id r.qty),
            reservations := s.reservations.map (commitMark r.id) }
      else none

inductive CommitResult where
  | committed (lines : List (Nat × Nat))
  | emptyCart
  | rejectedInsufficient
deriving DecidableEq, Repr

/-- Modelled from the spec (§4.4): the Checkout Committer.  Collect the
cart's active unexpired lines; empty set fails with `EmptyCart`; otherwise
apply the per-line check-and-decrement all-or-nothing: on any failed final
check the whole commit fails and the state is left exactly as it was. -/
def commit (cart : String) (now : Nat) (s : EngineState) : CommitResult × EngineState :=
  let L := cartLines cart now s.reservations
  if L = [] then (.emptyCart, s)
  else
    match commitLines L s with
    | some s2 => (.committed (L.map fun r => (r.article_id, r.qty)), s2)
    | none => (.rejectedInsufficient, s)

/-- The central safety invariant (spec §3, §8): for every article,
on-hand is at least the sum of qty over its active, unexpired
reservations. -/
def Inv (s : EngineState) (now : Nat) : Prop :=
  ∀ aid n, onHandOf aid s.articles = some n → activeSum aid now s.reservations ≤ n

/-- Well-formedness of the ledger: reservation ids are distinct and below
the allocator's next id. -/
def WF (s : EngineState) : Prop :=
  (s.reservations.map (·.id)).Nodup ∧ ∀ r ∈ s.reservations, r.id < s.nextId

/-- Reachable engine configurations: start from any catalog with no
reservations, let time advance, and apply the four operations at the
current time. -/
inductive Reach : EngineState → Nat → Prop where
  | init (ttl : Nat) (arts : List Article) (t : Nat) : Reach ⟨ttl, arts, [], 0⟩ t
  | tick (s : EngineState) (t t' : Nat) : Reach s t → t ≤ t' → Reach s t'
  | stepReserve (s : EngineState) (t aid : Nat) (cart : String) (qty : Nat) :
      Reach s t → Reach (reserve aid cart qty t s).2 t
  | stepRelease (s : EngineState) (t rid : Nat) :
      Reach s t → Reach (release rid s).2 t
  | stepCommit (s : EngineState) (t : Nat) (cart : String) :
      Reach s t → Reach (commit cart t s).2 t
  | stepSweep (s : EngineState) (t : Nat) :
      Reach s t → Reach (sweep t s) t

/-! ### Basic lemmas about the availability sum -/

lemma contrib_le_qty (aid now : Nat) (r : Reservation) : contrib aid now r ≤ r.qty := by
  unfold contrib; split <;> simp

lemma contrib_of_state_ne (aid now : Nat) (r : Reservation)
    (h : r.state ≠ RState.active) : contrib aid now r = 0 := by
  unfold contrib
  rw [if_neg]
  rintro ⟨-, h2, -⟩
  exact h h2

lemma contrib_of_article_ne (aid now : Nat) (r : Reservation)
    (h : r.article_id ≠ aid) : contrib aid now r = 0 := by
  unfold contrib
  rw [if_neg]
  rintro ⟨h1, -, -⟩
  exact h h1

lemma contrib_anti (aid : Nat) {t t' : Nat} (h : t ≤ t') (r : Reservation) :
    contrib aid t' r ≤ contrib aid t r := by
  unfold contrib
  by_cases h1 : r.article_id = aid ∧ r.state = RState.active ∧ t' < r.expires_at
  · rw [if_pos h1, if_pos ⟨h1.1, h1.2.1, lt_of_le_of_lt h h1.2.2⟩]
  · rw [if_neg h1]
    split <;> simp

lemma activeSum_anti (aid : Nat) {t t' : Nat} (h : t ≤ t') :
    ∀ l, activeSum aid t' l ≤ activeSum aid t l := by
  intro l
  induction l with
  | nil => simp [activeSum]
  | cons r rest ih =>
    simp only [activeSum]
    exact Nat.add_le_add (contrib_anti aid h r) ih

lemma activeSum_map_le (aid now : Nat) (g : Reservation → Reservation)
    (h : ∀ r, contrib aid now (g r) ≤ contrib aid now r) :
    ∀ l, activeSum aid now (l.map g) ≤ activeSum aid now l := by
  intro l
  induction l with
  | nil => simp [activeSum]
  | cons r rest ih =>
    simp only [List.map_cons, activeSum]
    exact Nat.add_le_add (h r) ih

lemma map_eq_self_of {α : Type _} {g : α → α} {l : List α} (h : ∀ a ∈ l, g a = a) :
    l.map g = l := by
  induction l with
  | nil => rfl
  | cons a rest ih =>
    simp only [List.map_cons]
    rw [h a (by simp), ih (fun x hx => h x (by simp [hx]))]

lemma ids_map_of_id (g : Reservation → Reservation) (h : ∀ r, (g r).id = r.id)
    (l : List Reservation) : (l.map g).map (·.id) = l.map (·.id) := by
  rw [List.map_map]
  exact List.map_congr_left (fun r _ => h r)

/-! ### Lemmas about the marking maps -/

lemma contrib_releaseMark_le (aid now rid : Nat) (r : Reservation) :
    contrib aid now (releaseMark rid r) ≤ contrib aid now r := by
  unfold releaseMark
  split
  · rw [contrib_of_state_ne]
    · simp
    · simp
  · exact le_refl _

lemma contrib_sweepMark_le (aid now t : Nat) (r : Reservation) :
    contrib aid now (sweepMark t r) ≤ contrib aid now r := by
  unfold sweepMark
  split
  · rw [contrib_of_state_ne]
    · simp
    · simp
  · exact le_refl _

lemma contrib_commitMark_le (aid now rid : Nat) (r : Reservation) :
    contrib aid now (commitMark rid r) ≤ contrib aid now r := by
  unfold commitMark
  split
  · rw [contrib_of_state_ne]
    · simp
    · simp
  · exact le_refl _

lemma activeSum_commitMark (aid now : Nat) (x : Reservation) :
    ∀ l : List Reservation, (l.map (·.id)).Nodup → x ∈ l → x.state = RState.active →
      activeSum aid now (l.map (commitMark x.id)) + contrib aid now x =
        activeSum aid now l := by
  intro l
  induction l with
  | nil => intro _ hx _; cases hx
  | cons a t ih =>
    intro hnd hx hact
    simp only [List.map_cons, List.nodup_cons] at hnd
    rcases List.mem_cons.mp hx with he | hxt
    · have hmark : commitMark x.id a = { a with state := RState.committed } := by
        unfold commitMark
        rw [if_pos ⟨by rw [he], by rw [← he]; exact hact⟩]
      have htail : t.map (commitMark x.id) = t := by
        apply map_eq_self_of
        intro r hr
        unfold commitMark
        rw [if_neg]
        rintro ⟨h1, -⟩
        apply hnd.1
        rw [← he, ← h1]
        exact List.mem_map_of_mem (·.id) hr
      simp only [List.map_cons, activeSum, hmark, htail]
      rw [contrib_of_state_ne aid now _ (by simp)]
      rw [he]
      omega
    · have hne : a.id ≠ x.id := by
        intro hee
        apply hnd.1
        rw [hee]
        exact List.mem_map_of_mem (·.id) hxt
      have hmark : commitMark x.id a = a := by
        unfold commitMark
        rw [if_neg]
        rintro ⟨h1, -⟩
        exact hne h1
      simp only [List.map_cons, activeSum, hmark]
      have := ih hnd.2 hxt hact
      omega

/-! ### Lemmas about the article table -/

lemma decArt_id (aid' q : Nat) (a : Article) : (decArt aid' q a).id = a.id := by
  unfold decArt
  split <;> rfl

lemma decArt_on_hand (aid' q : Nat) (a : Article) :
    (decArt aid' q a).on_hand = if a.id = aid' then a.on_hand - q else a.on_hand := by
  unfold decArt
  split <;> rfl

lemma onHandOf_decArt (aid aid' q : Nat) (l : List Article) :
    onHandOf aid (l.map (decArt aid' q)) =
      if aid = aid' then (onHandOf aid l).map (fun n => n - q) else onHandOf aid l := by
  induction l with
  | nil => simp only [List.map_nil, onHandOf, Option.map_none']; split <;> rfl
  | cons a rest ih =>
    by_cases h3 : aid = aid'
    · subst h3
      by_cases h2 : a.id = aid <;> simp [onHandOf, decArt_id, decArt_on_hand, h2, ih]
    · by_cases h2 : a.id = aid <;> simp [onHandOf, decArt_id, decArt_on_hand, h2, h3, ih]

/-! ### Lemmas about `cartLines` -/

lemma mem_cartLines (cart : String) (now : Nat) :
    ∀ l r, r ∈ cartLines cart now l ↔
      r ∈ l ∧ r.cart_id = cart ∧ r.state = RState.active ∧ now < r.expires_at := by
  intro l
  induction l with
  | nil => simp [cartLines]
  | cons h t ih =>
    intro r
    simp only [cartLines]
    split
    · next hc =>
      simp only [List.mem_cons, ih]
      constructor
      · rintro (rfl | ⟨hm, hp⟩)
        · exact ⟨Or.inl rfl, hc⟩
        · exact ⟨Or.inr hm, hp⟩
      · rintro ⟨rfl | hm, hp⟩
        · exact Or.inl rfl
        · exact Or.inr ⟨hm, hp⟩
    · next hc =>
      simp only [List.mem_cons, ih]
      constructor
      · rintro ⟨hm, hp⟩
        exact ⟨Or.inr hm, hp⟩
      · rintro ⟨rfl | hm, hp⟩
        · exact absurd hp hc
        · exact ⟨hm, hp⟩

lemma cartLines_sublist (cart : String) (now : Nat) :
    ∀ l, (cartLines cart now l).Sublist l := by
  intro l
  induction l with
  | nil => simp [cartLines]
  | cons h t ih =>
    simp only [cartLines]
    split
    · exact List.Sublist.cons₂ h ih
    · exact List.Sublist.cons h ih

lemma cartLines_eq_nil_iff (cart : String) (now : Nat) (l : List Reservation) :
    cartLines cart now l = [] ↔
      ∀ r ∈ l, ¬(r.cart_id = cart ∧ r.state = RState.active ∧ now < r.expires_at) := by
  rw [List.eq_nil_iff_forall_not_mem]
  constructor
  · intro h r hr hp
    exact h r ((mem_cartLines cart now l r).mpr ⟨hr, hp⟩)
  · intro h r hr
    have := (mem_cartLines cart now l r).mp hr
    exact h r this.1 this.2

/-! ### Lemmas about `commitLines` -/

/-- Transition every listed row `active → committed`. -/
def markMany (ids : List Nat) (r : Reservation) : Reservation :=
  if r.state = RState.active ∧ r.id ∈ ids then { r with state := RState.committed } else r

lemma markMany_commitMark (i : Nat) (ids : List Nat) (r : Reservation) :
    markMany ids (commitMark i r) = markMany (i :: ids) r := by
  unfold markMany commitMark
  by_cases h1 : r.state = RState.active
  · by_cases h2 : r.id = i
    · simp [h1, h2]
    · by_cases h3 : r.id ∈ ids <;> simp [h1, h2, h3]
  · simp [h1]

lemma commitLines_shape :
    ∀ (L : List Reservation) (s s' : EngineState), commitLines L s = some s' →
      s'.reservations = s.reservations.map (markMany (L.map (·.id))) ∧
        s'.nextId = s.nextId := by
  intro L
  induction L with
  | nil =>
    intro s s' h
    simp only [commitLines, Option.some.injEq] at h
    subst h
    refine ⟨?_, rfl⟩
    rw [map_eq_self_of]
    intro r _
    unfold markMany
    simp
  | cons x L ih =>
    intro s s' h
    simp only [commitLines] at h
    split at h
    · exact absurd h (by simp)
    · split at h
      · obtain ⟨hres, hnext⟩ := ih _ _ h
        refine ⟨?_, hnext⟩
        rw [hres]
        simp only [List.map_map, List.map_cons]
        exact List.map_congr_left (fun r _ => markMany_commitMark x.id _ r)
      · exact absurd h (by simp)

lemma commitLines_inv (now : Nat) :
    ∀ (L : List Reservation) (s s' : EngineState),
      commitLines L s = some s' →
      (s.reservations.map (·.id)).Nodup →
      (∀ r ∈ L, r ∈ s.reservations ∧ r.state = RState.active ∧ now < r.expires_at) →
      (L.map (·.id)).Nodup →
      Inv s now → Inv s' now := by
  intro L
  induction L with
  | nil =>
    intro s s' h _ _ _ hInv
    simp only [commitLines, Option.some.injEq] at h
    subst h
    exact hInv
  | cons x L ih =>
    intro s s' h hnd hL hLnd hInv
    simp only [commitLines] at h
    split at h
    · exact absurd h (by simp)
    · next n honh =>
      split at h
      · next hqle =>
        obtain ⟨hxmem, hxact, hxexp⟩ := hL x (List.mem_cons_self x L)
        simp only [List.map_cons, List.nodup_cons] at hLnd
        -- the intermediate state after committing line `x`
        have hInv1 : Inv { s with
            articles := s.articles.map (decArt x.article_id x.qty),
            reservations := s.reservations.map (commitMark x.id) } now := by
          intro aid m hm
          simp only at hm ⊢
          rw [onHandOf_decArt] at hm
          have hacc := activeSum_commitMark aid now x s.reservations hnd hxmem hxact
          by_cases haid : aid = x.article_id
          · rw [if_pos haid, haid, honh] at hm
            simp only [Option.map_some', Option.some.injEq] at hm
            have hcx : contrib aid now x = x.qty := by
              unfold contrib
              rw [if_pos ⟨haid.symm, hxact, hxexp⟩]
            have hs := hInv x.article_id n honh
            rw [← haid] at hs
            omega
          · rw [if_neg haid] at hm
            have hs := hInv aid m hm
            have hcx : contrib aid now x = 0 :=
              contrib_of_article_ne aid now x (fun he => haid he.symm)
            omega
        have hnd1 : (({ s with
            articles := s.articles.map (decArt x.article_id x.qty),
            reservations := s.reservations.map (commitMark x.id) } :
              EngineState).reservations.map (·.id)).Nodup := by
          simp only
          rw [ids_map_of_id]
          · exact hnd
          · intro r
            unfold commitMark
            split <;> rfl
        have hL1 : ∀ r ∈ L, r ∈ (s.reservations.map (commitMark x.id)) ∧
            r.state = RState.active ∧ now < r.expires_at := by
          intro r hr
          obtain ⟨hrm, hract, hrexp⟩ := hL r (List.mem_cons_of_mem x hr)
          have hne : r.id ≠ x.id := by
            intro he
            exact hLnd.1 (he ▸ List.mem_map_of_mem (·.id) hr)
          have : commitMark x.id r = r := by
            unfold commitMark
            rw [if_neg]
            rintro ⟨h1, -⟩
            exact hne h1
          exact ⟨this ▸ List.mem_map_of_mem (commitMark x.id) hrm, hract, hrexp⟩
        exact ih _ _ h hnd1 hL1 hLnd.2 hInv1
      · exact absurd h (by simp)

/-! ### Preservation of the invariant along reachable states -/

lemma forall_id_lt_map (g : Reservation → Reservation) (hg : ∀ r, (g r).id = r.id)
    (l : List Reservation) (N : Nat) (h : ∀ r ∈ l, r.id < N) :
    ∀ r' ∈ l.map g, r'.id < N := by
  intro r' hr'
  obtain ⟨r, hrl, rfl⟩ := List.mem_map.mp hr'
  rw [hg]
  exact h r hrl

lemma releaseMark_id (rid : Nat) (r : Reservation) : (releaseMark rid r).id = r.id := by
  unfold releaseMark
  split <;> rfl

lemma sweepMark_id (t : Nat) (r : Reservation) : (sweepMark t r).id = r.id := by
  unfold sweepMark
  split <;> rfl

lemma commitMark_id (rid : Nat) (r : Reservation) : (commitMark rid r).id = r.id := by
  unfold commitMark
  split <;> rfl

lemma markMany_id (ids : List Nat) (r : Reservation) : (markMany ids r).id = r.id := by
  unfold markMany
  split <;> rfl

/-- Every reachable engine state satisfies the central safety invariant and
is well-formed. -/
lemma reach_inv_wf {s : EngineState} {t : Nat} (h : Reach s t) : Inv s t ∧ WF s := by
  induction h with
  | init ttl arts t =>
    refine ⟨?_, ?_, ?_⟩
    · intro aid n _
      simp [activeSum]
    · simp
    · simp
  | tick s t t' _ hle ih =>
    refine ⟨?_, ih.2⟩
    intro aid n hn
    exact le_trans (activeSum_anti aid hle _) (ih.1 aid n hn)
  | stepReserve s t aid cart qty _ ih =>
    by_cases hq : qty = 0
    · simp only [reserve, if_pos hq]
      exact ih
    · cases hn : onHandOf aid s.articles with
      | none => simp only [reserve, if_neg hq, hn]; exact ih
      | some n =>
        by_cases hle :
            (qty : Int) ≤ (n : Int) - (activeSum aid t s.reservations : Int)
        · simp only [reserve, if_neg hq, hn, if_pos hle]
          constructor
          · intro aid' m hm
            simp only at hm ⊢
            rw [activeSum]
            have hsum := ih.1 aid' m hm
            by_cases ha : aid' = aid
            · subst ha
              rw [hn] at hm
              have hm' : n = m := by
                simpa using hm
              have hc : contrib aid' t
                  ⟨s.nextId, aid', cart, qty, t, t + s.ttl, RState.active⟩ ≤ qty :=
                contrib_le_qty aid' t _
              omega
            · rw [contrib_of_article_ne _ _ _ (fun he => ha he.symm)]
              omega
          · refine ⟨?_, ?_⟩
            · simp only [List.map_cons, List.nodup_cons]
              refine ⟨?_, ih.2.1⟩
              intro hmem
              obtain ⟨r, hrl, hrid⟩ := List.mem_map.mp hmem
              exact absurd hrid (Nat.ne_of_lt (ih.2.2 r hrl))
            · intro r hr
              rcases List.mem_cons.mp hr with he | hmem
              · rw [he]
                exact Nat.lt_succ_self _
              · exact Nat.lt_succ_of_lt (ih.2.2 r hmem)
        · simp only [reserve, if_neg hq, hn, if_neg hle]
          exact ih
  | stepRelease s t rid _ ih =>
    cases hf : findRes rid s.reservations with
    | none => simp only [release, hf]; exact ih
    | some r =>
      by_cases hst : r.state = RState.active
      · simp only [release, hf, if_pos hst]
        constructor
        · intro aid n hn
          simp only at hn ⊢
          exact le_trans
            (activeSum_map_le aid t _ (contrib_releaseMark_le aid t rid) _)
            (ih.1 aid n hn)
        · refine ⟨?_, ?_⟩
          · simp only
            rw [ids_map_of_id _ (releaseMark_id rid)]
            exact ih.2.1
          · exact forall_id_lt_map _ (releaseMark_id rid) _ _ ih.2.2
      · simp only [release, hf, if_neg hst]
        exact ih
  | stepCommit s t cart _ ih =>
    by_cases hL : cartLines cart t s.reservations = []
    · simp only [commit, hL, if_pos rfl]
      exact ih
    · cases hcl : commitLines (cartLines cart t s.reservations) s with
      | none => simp only [commit, if_neg hL, hcl]; exact ih
      | some s2 =>
        simp only [commit, if_neg hL, hcl]
        have hLmem : ∀ r ∈ cartLines cart t s.reservations,
            r ∈ s.reservations ∧ r.state = RState.active ∧ t < r.expires_at := by
          intro r hr
          have := (mem_cartLines cart t s.reservations r).mp hr
          exact ⟨this.1, this.2.2.1, this.2.2.2⟩
        have hLnd : ((cartLines cart t s.reservations).map (·.id)).Nodup :=
          List.Nodup.sublist
            (List.Sublist.map (·.id) (cartLines_sublist cart t s.reservations))
            ih.2.1
        obtain ⟨hres, hnext⟩ := commitLines_shape _ _ _ hcl
        constructor
        · exact commitLines_inv t _ _ _ hcl ih.2.1 hLmem hLnd ih.1
        · refine ⟨?_, ?_⟩
          · rw [hres, ids_map_of_id _ (markMany_id _)]
            exact ih.2.1
          · rw [hres, hnext]
            exact forall_id_lt_map _ (markMany_id _) _ _ ih.2.2
  | stepSweep s t _ ih =>
    constructor
    · intro aid n hn
      simp only [sweep] at hn ⊢
      exact le_trans
        (activeSum_map_le aid t _ (contrib_sweepMark_le aid t t) _)
        (ih.1 aid n hn)
    · refine ⟨?_, ?_⟩
      · simp only [sweep]
        rw [ids_map_of_id _ (sweepMark_id t)]
        exact ih.2.1
      · exact forall_id_lt_map _ (sweepMark_id t) _ _ ih.2.2

/-! ### Claims C1–C5 -/

def cart1 : String := "cart1"

def c2cart : String := "c2cart"

def c4cart : String := "c4cart"

def c5cart : String := "c5cart"

/-- C1: for every article and every reachable state of the system, at every
instant, on-hand stock is at least the sum of qty over that article's
active-and-unexpired reservations.  `Reach` closes the initial states under
`reserve`, `release`, `commit` and `sweep` and under the passage of time, so
no operation ever creates a state violating the invariant. -/
theorem c1_reachable_invariant (s : EngineState) (t : Nat) (h : Reach s t) :
    Inv s t :=
  (reach_inv_wf h).1

theorem c1_reachable_invariant_witness :
    Inv ((reserve 1 cart1 3 0 ⟨600, [⟨1, 5⟩], [], 0⟩).2) 0 :=
  c1_reachable_invariant _ 0
    (Reach.stepReserve _ 0 1 cart1 3 (Reach.init 600 [⟨1, 5⟩] 0))

/-- C2: for an existing article (`onHandOf` yields `some n`) and `qty > 0`,
`reserve` inserts a fresh `active` row with `created_at = now` and
`expires_at = now + TTL` and returns its id exactly when
`qty ≤ available(article, now)`; otherwise it rejects with
`insufficient_stock`, carrying the current availability, and inserts
nothing. -/
theorem c2_reserve_contract (s : EngineState) (aid : Nat) (cart : String)
    (qty now n : Nat) (hn : onHandOf aid s.articles = some n) (hq : 0 < qty) :
    reserve aid cart qty now s =
      if (qty : Int) ≤ (n : Int) - (activeSum aid now s.reservations : Int) then
        (.ok s.nextId,
          { s with
            reservations :=
              ⟨s.nextId, aid, cart, qty, now, now + s.ttl, RState.active⟩ :: s.reservations,
            nextId := s.nextId + 1 })
      else
        (.rejectedInsufficient ((n : Int) - (activeSum aid now s.reservations : Int)), s) := by
  have hq' : ¬qty = 0 := by omega
  simp only [reserve, if_neg hq', hn]

theorem c2_reserve_contract_witness :
    onHandOf 1 [⟨1, 5⟩] = some 5 ∧ 0 < 3 ∧
      reserve 1 c2cart 3 0 ⟨600, [⟨1, 5⟩], [], 0⟩ =
        (.ok 0, ⟨600, [⟨1, 5⟩], [⟨0, 1, c2cart, 3, 0, 600, RState.active⟩], 1⟩) :=
  ⟨rfl, by decide, by
    rw [c2_reserve_contract ⟨600, [⟨1, 5⟩], [], 0⟩ 1 c2cart 3 0 5 rfl (by decide)]
    decide⟩

/-- C3: commit is idempotent — if `commit cart` succeeds at time `now`,
then a second `commit cart` at any time `now' ≥ now` returns `EmptyCart`
and leaves the state (in particular every article's on-hand) exactly as the
first call left it, so on-hand is decremented exactly once over the two
calls. -/
theorem c3_commit_idempotent (cart : String) (now now' : Nat) (s s1 : EngineState)
    (out : List (Nat × Nat)) (h : commit cart now s = (.committed out, s1))
    (ht : now ≤ now') :
    commit cart now' s1 = (.emptyCart, s1) := by
  by_cases hL : cartLines cart now s.reservations = []
  · simp [commit, hL] at h
  · cases hcl : commitLines (cartLines cart now s.reservations) s with
    | none =>
      simp [commit, hL, hcl] at h
    | some s2 =>
      simp only [commit, if_neg hL, hcl, Prod.mk.injEq] at h
      obtain ⟨-, hs⟩ := h
      subst hs
      obtain ⟨hres, -⟩ := commitLines_shape _ _ _ hcl
      have hnil : cartLines cart now' s2.reservations = [] := by
        rw [cartLines_eq_nil_iff]
        intro r' hr'
        rw [hres] at hr'
        obtain ⟨r, hrm, rfl⟩ := List.mem_map.mp hr'
        rintro ⟨hcart, hact, hexp⟩
        unfold markMany at hcart hact hexp
        by_cases hg : r.state = RState.active ∧
            r.id ∈ (cartLines cart now s.reservations).map (·.id)
        · rw [if_pos hg] at hact
          simp at hact
        · rw [if_neg hg] at hcart hact hexp
          apply hg
          refine ⟨hact, ?_⟩
          have hrL : r ∈ cartLines cart now s.reservations :=
            (mem_cartLines cart now s.reservations r).mpr
              ⟨hrm, hcart, hact, lt_of_le_of_lt ht hexp⟩
          exact List.mem_map_of_mem (·.id) hrL
      simp [commit, hnil]

/-- A two-step scenario for C3: on-hand 5, a cart holding 3 reserved units;
after the successful commit the second commit is an `EmptyCart` no-op. -/
def c3s0 : EngineState :=
  ⟨600, [⟨1, 5⟩], [⟨0, 1, cart1, 3, 0, 600, RState.active⟩], 1⟩

def c3s1 : EngineState :=
  ⟨600, [⟨1, 2⟩], [⟨0, 1, cart1, 3, 0, 600, RState.committed⟩], 1⟩

theorem c3_commit_idempotent_witness :
    commit cart1 0 c3s0 = (.committed [(1, 3)], c3s1) ∧ 0 ≤ 0 ∧
      commit cart1 0 c3s1 = (.emptyCart, c3s1) :=
  ⟨by decide, by decide,
    c3_commit_idempotent cart1 0 0 c3s0 c3s1 [(1, 3)] (by decide) (by decide)⟩

lemma available_eq (s : EngineState) (aid t n : Nat)
    (hn : onHandOf aid s.articles = some n) :
    available s aid t =
      some ((n : Int) - ((activeSum aid t s.reservations : Nat) : Int)) := by
  unfold available
  rw [hn]
  rfl

lemma available_cons (s : EngineState) (aid t : Nat) (r : Reservation) (n : Nat)
    (hn : onHandOf aid s.articles = some n) :
    available { s with reservations := r :: s.reservations, nextId := s.nextId + 1 } aid t =
      some ((n : Int) - ((contrib aid t r + activeSum aid t s.reservations : Nat) : Int)) := by
  unfold available
  rw [show ({ s with reservations := r :: s.reservations, nextId := s.nextId + 1 } :
      EngineState).articles = s.articles from rfl]
  rw [hn]
  rfl

/-- C4: lazy expiry — after a successful `reserve` at time `now` the new
reservation reduces availability by `qty` at every time strictly before
`now + TTL` and is excluded again from `now + TTL` on, with no sweep tick
involved; correctness is independent of the Sweeper. -/
theorem c4_lazy_expiry (s s' : EngineState) (aid : Nat) (cart : String)
    (qty now rid t1 t2 : Nat)
    (h : reserve aid cart qty now s = (.ok rid, s'))
    (h1 : t1 < now + s.ttl) (h2 : now + s.ttl ≤ t2) :
    available s' aid t1 = (available s aid t1).map (fun v => v - (qty : Int)) ∧
      available s' aid t2 = available s aid t2 := by
  by_cases hq : qty = 0
  · simp only [reserve, if_pos hq, Prod.mk.injEq] at h
    exact absurd h.1 (by simp)
  · cases hn : onHandOf aid s.articles with
    | none =>
      simp only [reserve, if_neg hq, hn, Prod.mk.injEq] at h
      exact absurd h.1 (by simp)
    | some n =>
      by_cases hle : (qty : Int) ≤ (n : Int) - (activeSum aid now s.reservations : Int)
      · simp only [reserve, if_neg hq, hn, if_pos hle, Prod.mk.injEq] at h
        obtain ⟨-, hs⟩ := h
        subst hs
        have e1 : contrib aid t1
            ⟨s.nextId, aid, cart, qty, now, now + s.ttl, RState.active⟩ = qty := by
          unfold contrib
          rw [if_pos ⟨rfl, rfl, h1⟩]
        have e2 : contrib aid t2
            ⟨s.nextId, aid, cart, qty, now, now + s.ttl, RState.active⟩ = 0 := by
          unfold contrib
          rw [if_neg]
          rintro ⟨-, -, hlt⟩
          exact absurd hlt (by simp only; omega)
        constructor
        · rw [available_cons s aid t1 _ n hn, available_eq s aid t1 n hn,
            Option.map_some', Option.some.injEq, e1]
          push_cast
          ring
        · rw [available_cons s aid t2 _ n hn, available_eq s aid t2 n hn,
            Option.some.injEq, e2]
          push_cast
          ring
      · simp only [reserve, if_neg hq, hn, if_neg hle, Prod.mk.injEq] at h
        exact absurd h.1 (by simp)

theorem c4_lazy_expiry_witness :
    reserve 1 c4cart 3 0 ⟨600, [⟨1, 5⟩], [], 0⟩ =
        (.ok 0, ⟨600, [⟨1, 5⟩], [⟨0, 1, c4cart, 3, 0, 600, RState.active⟩], 1⟩) ∧
      599 < 0 + 600 ∧ 0 + 600 ≤ 601 ∧
      available ⟨600, [⟨1, 5⟩], [⟨0, 1, c4cart, 3, 0, 600, RState.active⟩], 1⟩ 1 599 =
        (available ⟨600, [⟨1, 5⟩], [], 0⟩ 1 599).map (fun v => v - (3 : Int)) ∧
      available ⟨600, [⟨1, 5⟩], [⟨0, 1, c4cart, 3, 0, 600, RState.active⟩], 1⟩ 1 601 =
        available ⟨600, [⟨1, 5⟩], [], 0⟩ 1 601 := by
  have h := c4_lazy_expiry ⟨600, [⟨1, 5⟩], [], 0⟩
    ⟨600, [⟨1, 5⟩], [⟨0, 1, c4cart, 3, 0, 600, RState.active⟩], 1⟩
    1 c4cart 3 0 0 599 601 (by decide) (by decide) (by decide)
  exact ⟨by decide, by decide, by decide, h.1, h.2⟩

/-- C5: commit is all-or-nothing — whenever a commit fails its final stock
check (`rejectedInsufficient`), the state is returned exactly as it was: no
on-hand decrement is applied and every reservation, including the lines
checked earlier in the same call, is left untouched. -/
theorem c5_commit_all_or_nothing (cart : String) (now : Nat) (s : EngineState)
    (h : (commit cart now s).1 = .rejectedInsufficient) :
    (commit cart now s).2 = s := by
  by_cases hL : cartLines cart now s.reservations = []
  · simp [commit, hL]
  · cases hcl : commitLines (cartLines cart now s.reservations) s with
    | none => simp [commit, hL, hcl]
    | some s2 => simp [commit, hL, hcl] at h

def c5s : EngineState :=
  ⟨600, [⟨1, 0⟩], [⟨0, 1, c5cart, 1, 0, 600, RState.active⟩], 1⟩

theorem c5_commit_all_or_nothing_witness :
    (commit c5cart 0 c5s).1 = .rejectedInsufficient ∧
      (commit c5cart 0 c5s).2 = c5s :=
  ⟨by decide, c5_commit_all_or_nothing c5cart 0 c5s (by decide)⟩

/-! ### Claim C6: monotone, one-directional state transitions -/

/-- The four state-changing operations of the engine. -/
inductive Op where
  | opReserve (aid : Nat) (cart : String) (qty : Nat)
  | opRelease (rid : Nat)
  | opCommit (cart : String)
  | opSweep

/-- Apply an operation at the given time, keeping only the state. -/
def applyOp : Op → Nat → EngineState → EngineState
  | .opReserve aid cart qty, now, s => (reserve aid cart qty now s).2
  | .opRelease rid, _, s => (release rid s).2
  | .opCommit cart, now, s => (commit cart now s).2
  | .opSweep, now, s => sweep now s

/-- One reservation record evolving across an operation: every field but
`state` is unchanged, and the state either stays put or makes the single
legal move `active → {expired, released, committed}`. -/
def StepOK (r r' : Reservation) : Prop :=
  r'.id = r.id ∧ r'.article_id = r.article_id ∧ r'.cart_id = r.cart_id ∧
    r'.qty = r.qty ∧ r'.created_at = r.created_at ∧ r'.expires_at = r.expires_at ∧
    (r'.state = r.state ∨
      (r.state = RState.active ∧
        (r'.state = RState.expired ∨ r'.state = RState.released ∨
          r'.state = RState.committed)))

lemma stepOK_refl (r : Reservation) : StepOK r r :=
  ⟨rfl, rfl, rfl, rfl, rfl, rfl, Or.inl rfl⟩

lemma forall2_stepOK_refl : ∀ l : List Reservation, List.Forall₂ StepOK l l := by
  intro l
  induction l with
  | nil => exact List.Forall₂.nil
  | cons a t ih => exact List.Forall₂.cons (stepOK_refl a) ih

lemma forall2_stepOK_map (g : Reservation → Reservation)
    (h : ∀ r, StepOK r (g r)) : ∀ l, List.Forall₂ StepOK l (l.map g) := by
  intro l
  induction l with
  | nil => exact List.Forall₂.nil
  | cons a t ih => exact List.Forall₂.cons (h a) ih

lemma stepOK_releaseMark (rid : Nat) (r : Reservation) : StepOK r (releaseMark rid r) := by
  unfold releaseMark
  split
  · next hg => exact ⟨rfl, rfl, rfl, rfl, rfl, rfl, Or.inr ⟨hg.2, Or.inr (Or.inl rfl)⟩⟩
  · exact stepOK_refl r

lemma stepOK_sweepMark (t : Nat) (r : Reservation) : StepOK r (sweepMark t r) := by
  unfold sweepMark
  split
  · next hg => exact ⟨rfl, rfl, rfl, rfl, rfl, rfl, Or.inr ⟨hg.1, Or.inl rfl⟩⟩
  · exact stepOK_refl r

lemma stepOK_markMany (ids : List Nat) (r : Reservation) : StepOK r (markMany ids r) := by
  unfold markMany
  split
  · next hg => exact ⟨rfl, rfl, rfl, rfl, rfl, rfl, Or.inr ⟨hg.1, Or.inr (Or.inr rfl)⟩⟩
  · exact stepOK_refl r

/-- C6: reservation state transitions are monotone and one-directional.
Every operation maps the existing records field-for-field onto records
whose state is unchanged or makes the single legal move
`active → {expired, released, committed}` (so no record ever leaves a
terminal state), and the only records an operation can add are `active`
ones. -/
theorem c6_state_monotonic (op : Op) (now : Nat) (s : EngineState) :
    ∃ new old, (applyOp op now s).reservations = new ++ old ∧
      (∀ r ∈ new, r.state = RState.active) ∧
      List.Forall₂ StepOK s.reservations old := by
  cases op with
  | opReserve aid cart qty =>
    by_cases hq : qty = 0
    · exact ⟨[], s.reservations, by simp [applyOp, reserve, hq], by simp,
        forall2_stepOK_refl _⟩
    · cases hn : onHandOf aid s.articles with
      | none =>
        exact ⟨[], s.reservations, by simp [applyOp, reserve, hq, hn], by simp,
          forall2_stepOK_refl _⟩
      | some n =>
        by_cases hle : (qty : Int) ≤ (n : Int) - (activeSum aid now s.reservations : Int)
        · refine ⟨[⟨s.nextId, aid, cart, qty, now, now + s.ttl, RState.active⟩],
            s.reservations, ?_, ?_, forall2_stepOK_refl _⟩
          · simp [applyOp, reserve, hq, hn, hle]
          · intro r hr
            simp only [List.mem_singleton] at hr
            rw [hr]
        · exact ⟨[], s.reservations, by simp [applyOp, reserve, hq, hn, hle], by simp,
            forall2_stepOK_refl _⟩
  | opRelease rid =>
    cases hf : findRes rid s.reservations with
    | none =>
      exact ⟨[], s.reservations, by simp [applyOp, release, hf], by simp,
        forall2_stepOK_refl _⟩
    | some r =>
      by_cases hst : r.state = RState.active
      · exact ⟨[], s.reservations.map (releaseMark rid),
          by simp [applyOp, release, hf, hst], by simp,
          forall2_stepOK_map _ (stepOK_releaseMark rid) _⟩
      · exact ⟨[], s.reservations, by simp [applyOp, release, hf, hst], by simp,
          forall2_stepOK_refl _⟩
  | opCommit cart =>
    by_cases hL : cartLines cart now s.reservations = []
    · exact ⟨[], s.reservations, by simp [applyOp, commit, hL], by simp,
        forall2_stepOK_refl _⟩
    · cases hcl : commitLines (cartLines cart now s.reservations) s with
      | none =>
        exact ⟨[], s.reservations, by simp [applyOp, commit, hL, hcl], by simp,
          forall2_stepOK_refl _⟩
      | some s2 =>
        refine ⟨[], s2.reservations, by simp [applyOp, commit, hL, hcl], by simp, ?_⟩
        rw [(commitLines_shape _ _ _ hcl).1]
        exact forall2_stepOK_map _ (stepOK_markMany _) _
  | opSweep =>
    exact ⟨[], s.reservations.map (sweepMark now), by simp [applyOp, sweep], by simp,
      forall2_stepOK_map _ (stepOK_sweepMark now) _⟩

/-! ## Part II: the payments backend (`src/app.py`) -/

/-- The `card` dict passed to `simple_card_check`: Python strings are
modelled as `List Char` because the code inspects individual characters
(`cvv` is the result of `str(card_info.get("cvv", ""))`). -/
structure CardInfo where
  number : List Char
  cvv : List Char
  expiry : List Char
deriving DecidableEq, Repr

/-- The provider-response strings produced by `simple_card_check`. -/
inductive CCReason where
  | authorized
  | invalid_card_number
  | invalid_cvv
  | invalid_expiry
  | bank_decline
  | processing_error
deriving DecidableEq, Repr

/-- The Unicode characters with `Numeric_Type=Digit` that are not decimal
digits: Python `str.isdigit` accepts them, but `int()` rejects them.  The
super- and subscript digits stand for this whole class; every other such
Python character (e.g. a Kharosthi digit) behaves identically to one of
these for everything this code does (per-character `isdigit`, membership
of `/`, single-character `int()`), and every non-ASCII decimal digit
behaves identically to the ASCII digit of the same value, so restricting
the alphabet to these representatives loses no behavior of
`simple_card_check`. -/
def pyDigitNonDecimal (c : Char) : Bool :=
  c == '⁰' || c == '¹' || c == '²' || c == '³' || c == '⁴' || c == '⁵' ||
    c == '⁶' || c == '⁷' || c == '⁸' || c == '⁹' || c == '₀' || c == '₁' ||
    c == '₂' || c == '₃' || c == '₄' || c == '₅' || c == '₆' || c == '₇' ||
    c == '₈' || c == '₉'

/-- Python's per-character digit test: a decimal digit (`Char.isDigit`,
the class single-character `int()` accepts) or a non-decimal Unicode
digit. -/
def pyCharIsDigit (c : Char) : Bool := c.isDigit || pyDigitNonDecimal c

/-- Python `str.isdigit`: non-empty and every character a digit character
(decimal or non-decimal). -/
def pyIsdigit (l : List Char) : Prop := l ≠ [] ∧ ∀ c ∈ l, pyCharIsDigit c

instance (l : List Char) : Decidable (pyIsdigit l) :=
  decidable_of_iff (l ≠ [] ∧ ∀ c ∈ l, pyCharIsDigit c) Iff.rfl

/-- Python `int(c)` for a single digit character. -/
def charDigitVal (c : Char) : Nat := c.toNat - 48

/-- The `try: last = int(number[-1]) ...` block of `simple_card_check`:
accept on an even last digit, decline on odd; the `except` branch (empty
number or non-digit last character) is `processing_error`. -/
def lastDigitCheck (number : List Char) : Bool × CCReason :=
  match number.getLast? with
  | some d =>
    if d.isDigit then
      if charDigitVal d % 2 = 0 then (true, .authorized) else (false, .bank_decline)
    else (false, .processing_error)
  | none => (false, .processing_error)

lemma lastDigitCheck_eq (number : List Char) (d : Char) (h : number.getLast? = some d) :
    lastDigitCheck number =
      if d.isDigit then
        if charDigitVal d % 2 = 0 then (true, CCReason.authorized)
        else (false, CCReason.bank_decline)
      else (false, CCReason.processing_error) := by
  unfold lastDigitCheck
  rw [h]

/-- Whether the last character of the card number is an even digit. -/
def lastDigitEven (l : List Char) : Bool :=
  match l.getLast? with
  | some d => charDigitVal d % 2 == 0
  | none => false

lemma lastDigitEven_eq (l : List Char) (d : Char) (h : l.getLast? = some d) :
    lastDigitEven l = (charDigitVal d % 2 == 0) := by
  unfold lastDigitEven
  rw [h]

/-- Whether the last character is a decimal digit (so that `int()` on it
succeeds). -/
def lastIsDecimal (l : List Char) : Bool :=
  match l.getLast? with
  | some d => d.isDigit
  | none => false

lemma lastIsDecimal_eq (l : List Char) (d : Char) (h : l.getLast? = some d) :
    lastIsDecimal l = d.isDigit := by
  unfold lastIsDecimal
  rw [h]

/-- `simple_card_check` from `src/app.py` (lines 99–124): reject a
non-digit number or one of length outside 12–19, a non-digit cvv of length
outside 3–4, an expiry without a `/`; then accept exactly when the last
digit of the number is even.  The `except` branch fires exactly when the
`isdigit`-passing number ends in a non-decimal digit character such as
`'²'`, making `int(number[-1])` raise — then the result is
`processing_error` (see `lastDigitCheck`). -/
def simple_card_check (card : CardInfo) (amount : ℚ) : Bool × CCReason :=
  let number := card.number
  let cvv := card.cvv
  let expiry := card.expiry
  if ¬pyIsdigit number ∨ number.length < 12 ∨ 19 < number.length then
    (false, .invalid_card_number)
  else if ¬pyIsdigit cvv ∨ ¬(3 ≤ cvv.length ∧ cvv.length ≤ 4) then
    (false, .invalid_cvv)
  else if expiry = [] ∨ ¬('/' ∈ expiry) then
    (false, .invalid_expiry)
  else lastDigitCheck number

/-- The original claim's wording of the card check (reading "all digits"
as decimal digits): `(True, "authorized")` exactly when the number is all
digits of length 12–19, the cvv all digits of length 3 or 4, the expiry
contains `/` and the last digit of the number is even; otherwise `False`
with the corresponding one of the four reasons.  Refuted by
`c10_card_check_counterexample`: a number of non-decimal digit characters
passes the code's `isdigit` guard yet makes `int(number[-1])` raise, so
the code returns the fifth reason `processing_error` (under the other
reading of "all digits" — Python `isdigit` — the claim fails at the same
input, which it would send to the even-digit acceptance instead). -/
def card_check_claim (card : CardInfo) : Bool × CCReason :=
  if ¬((∀ c ∈ card.number, c.isDigit) ∧ 12 ≤ card.number.length ∧ card.number.length ≤ 19) then
    (false, .invalid_card_number)
  else if ¬((∀ c ∈ card.cvv, c.isDigit) ∧ (card.cvv.length = 3 ∨ card.cvv.length = 4)) then
    (false, .invalid_cvv)
  else if ¬('/' ∈ card.expiry) then
    (false, .invalid_expiry)
  else if lastDigitEven card.number then (true, .authorized)
  else (false, .bank_decline)

/-- The card check as the amended claim words it: accept exactly on an
`isdigit`-passing number of length 12–19, an `isdigit`-passing cvv of
length 3 or 4, an expiry containing `/`, and a last number character that
is a decimal digit with even value; when everything but the last condition
holds and the number ends in a non-decimal digit character, the result is
`processing_error` (the `except` branch); otherwise `False` with the
corresponding reason in check order. -/
def card_check_amended (card : CardInfo) : Bool × CCReason :=
  if ¬(pyIsdigit card.number ∧ 12 ≤ card.number.length ∧ card.number.length ≤ 19) then
    (false, .invalid_card_number)
  else if ¬(pyIsdigit card.cvv ∧ (card.cvv.length = 3 ∨ card.cvv.length = 4)) then
    (false, .invalid_cvv)
  else if ¬('/' ∈ card.expiry) then
    (false, .invalid_expiry)
  else if ¬lastIsDecimal card.number then (false, .processing_error)
  else if lastDigitEven card.number then (true, .authorized)
  else (false, .bank_decline)

/-- A card whose number consists of twelve `'²'` characters: `str.isdigit`
accepts it (so all three guards pass), but `int('²')` raises. -/
def c10card : CardInfo :=
  ⟨List.replicate 12 '²', [ '1', '2', '3' ], [ '1', '/' ]⟩

/-- C10 counterexample: on `c10card` the code returns the fifth reason
`(False, "processing_error")`, which the claim's four-reason taxonomy
excludes — `simple_card_check` differs from the claim-worded
`card_check_claim` at this input. -/
theorem c10_card_check_counterexample :
    simple_card_check c10card 5 = (false, CCReason.processing_error) ∧
      simple_card_check c10card 5 ≠ card_check_claim c10card :=
  ⟨by decide, by decide⟩

/-- C10 (amended): `simple_card_check` is a pure deterministic function of
the card fields that coincides with the amended characterization
(`card_check_amended`, which adds the `processing_error` case for numbers
ending in a non-decimal digit character), and its `amount` argument never
affects the result. -/
theorem c10_simple_card_check_amended (card : CardInfo) (a b : ℚ) :
    simple_card_check card a = card_check_amended card ∧
      simple_card_check card a = simple_card_check card b := by
  refine ⟨?_, rfl⟩
  obtain ⟨number, cvv, expiry⟩ := card
  simp only [simple_card_check, card_check_amended]
  by_cases hN : pyIsdigit number ∧ 12 ≤ number.length ∧ number.length ≤ 19
  · obtain ⟨hpd, h12, h19⟩ := hN
    have hnn : number ≠ [] := hpd.1
    have g1 : ¬(¬pyIsdigit number ∨ number.length < 12 ∨ 19 < number.length) := by
      rintro (h | h | h)
      · exact h hpd
      · omega
      · omega
    rw [if_neg g1, if_neg (not_not_intro ⟨hpd, h12, h19⟩)]
    by_cases hC : pyIsdigit cvv ∧ (cvv.length = 3 ∨ cvv.length = 4)
    · have g2 : ¬(¬pyIsdigit cvv ∨ ¬(3 ≤ cvv.length ∧ cvv.length ≤ 4)) := by
        rintro (h | h)
        · exact h hC.1
        · rcases hC.2 with h3 | h4
          · exact h (by omega)
          · exact h (by omega)
      rw [if_neg g2, if_neg (not_not_intro hC)]
      by_cases hE : '/' ∈ expiry
      · have g3 : ¬(expiry = [] ∨ ¬('/' ∈ expiry)) := by
          rintro (h | h)
          · rw [h] at hE
            exact List.not_mem_nil _ hE
          · exact h hE
        rw [if_neg g3, if_neg (not_not_intro hE),
          lastDigitCheck_eq number _ (List.getLast?_eq_getLast number hnn),
          lastIsDecimal_eq number _ (List.getLast?_eq_getLast number hnn),
          lastDigitEven_eq number _ (List.getLast?_eq_getLast number hnn)]
        by_cases hdec : (number.getLast hnn).isDigit = true
        · rw [if_pos hdec, if_neg (not_not_intro hdec)]
          by_cases he : charDigitVal (number.getLast hnn) % 2 = 0
          · rw [if_pos he, if_pos (by simpa using he)]
          · rw [if_neg he, if_neg (by simpa using he)]
        · rw [if_neg hdec, if_pos hdec]
      · rw [if_pos (Or.inr hE), if_pos hE]
    · have g2 : ¬pyIsdigit cvv ∨ ¬(3 ≤ cvv.length ∧ cvv.length ≤ 4) := by
        by_cases hcd : pyIsdigit cvv
        · refine Or.inr ?_
          intro hlen
          exact hC ⟨hcd, by omega⟩
        · exact Or.inl hcd
      rw [if_pos g2, if_pos hC]
  · have g1 : ¬pyIsdigit number ∨ number.length < 12 ∨ 19 < number.length := by
      by_cases hd : pyIsdigit number
      · by_cases h12 : 12 ≤ number.length
        · by_cases h19 : number.length ≤ 19
          · exact absurd ⟨hd, h12, h19⟩ hN
          · exact Or.inr (Or.inr (by omega))
        · exact Or.inr (Or.inl (by omega))
      · exact Or.inl hd
    rw [if_pos g1, if_pos hN]

/-! ### The payments data model (`src/app.py` lines 41–85) -/

/-- The `status` column of `payments`: `initiated`, `authorized`,
`confirmed`, `failed`. -/
inductive PStatus where
  | initiated
  | authorized
  | confirmed
  | failed
deriving DecidableEq, Repr

/-- A row of the `payments` table.  `amount` (a Python float) is modelled
as `ℚ`; the boolean-as-integer columns keep their 0/1 encoding; `detail`
keeps only the provider reason (the source stores `f"provider:{reason}"`);
timestamps are `Nat`. -/
structure Payment where
  id : Nat
  client_payment_id : String
  amount : ℚ
  currency : String
  mode : String
  status : PStatus
  detail : Option CCReason
  manager_approved : Nat
  erp_synced : Nat
  erp_retry : Nat
  created_at : Nat
  updated_at : Nat
deriving DecidableEq, Repr

/-- A row of `payment_attempts`. -/
structure PaymentAttempt where
  payment_id : Nat
  provider_response : CCReason
  success : Nat
  created_at : Nat
deriving DecidableEq, Repr

/-- A row of `receipts`; `receipt_number` models the string
`RCPT-{payment.id}-{ts}` as the pair (payment id, created-at timestamp). -/
structure Receipt where
  payment_id : Nat
  receipt_number : Nat × Nat
  created_at : Nat
deriving DecidableEq, Repr

/-- A row of `erp_queue`. -/
structure ERPEntry where
  payment_id : Nat
  attempts : Nat
  created_at : Nat
deriving DecidableEq, Repr

/-- The SQLite database of the backend, with the autoincrement counter for
payment primary keys. -/
structure PayState where
  payments : List Payment
  attempts : List PaymentAttempt
  receipts : List Receipt
  erpq : List ERPEntry
  nextPaymentId : Nat
deriving DecidableEq, Repr

/-- `Payment.query.get(payment_id)`: first payment with the given id. -/
def findPayment (pid : Nat) : List Payment → Option Payment
  | [] => none
  | p :: rest => if p.id = pid then some p else findPayment pid rest

/-- `Payment.query.filter_by(client_payment_id=...).first()`. -/
def findByCpid (c : String) : List Payment → Option Payment
  | [] => none
  | p :: rest => if p.client_payment_id = c then some p else findByCpid c rest

/-- Update the payment row with the given id in place. -/
def updatePayment (pid : Nat) (f : Payment → Payment) : List Payment → List Payment
  | [] => []
  | p :: rest => (if p.id = pid then f p else p) :: updatePayment pid f rest

/-- The status a `GET /payments/<id>` would report. -/
def statusOf (s : PayState) (pid : Nat) : Option PStatus :=
  (findPayment pid s.payments).map (·.status)

lemma findPayment_updatePayment (pid : Nat) (f : Payment → Payment)
    (hf : ∀ p, (f p).id = p.id) :
    ∀ l, findPayment pid (updatePayment pid f l) = (findPayment pid l).map f := by
  intro l
  induction l with
  | nil => rfl
  | cons p rest ih =>
    simp only [updatePayment, findPayment]
    by_cases h : p.id = pid
    · rw [if_pos h, if_pos h, if_pos (show (f p).id = pid by rw [hf p]; exact h),
        Option.map_some']
    · rw [if_neg h, if_neg h, if_neg h]
      exact ih

/-! ### The request handlers (`src/app.py` lines 142–383) -/

/-- The JSON body of `POST /payments/initiate` after Flask parsing: absent
fields are `none`; `amount` is the already-converted float (`float(...)`
conversion failures belong to claim C7). -/
structure InitReq where
  client_payment_id : Option String
  amount : ℚ
  currency : String
  mode : Option String
  manager_approved : Nat
deriving DecidableEq, Repr

inductive InitResult where
  | badRequest
  | resExists (payment_id : Nat) (status : PStatus)
  | created (payment_id : Nat)
deriving DecidableEq, Repr

/-- `initiate_payment` (lines 142–176): reject when `client_payment_id` or
`mode` is falsy (absent or empty) or `amount ≤ 0`; otherwise return the
existing payment for this `client_payment_id` if present, else insert a new
`initiated` row. -/
def initiate_payment (req : InitReq) (now : Nat) (s : PayState) :
    InitResult × PayState :=
  match req.client_payment_id, req.mode with
  | some c, some m =>
    if c = "" ∨ req.amount ≤ 0 ∨ m = "" then (.badRequest, s)
    else
      match findByCpid c s.payments with
      | some p => (.resExists p.id p.status, s)
      | none =>
        (.created s.nextPaymentId,
          { s with
            payments := s.payments ++
              [{ id := s.nextPaymentId, client_payment_id := c, amount := req.amount,
                 currency := req.currency, mode := m, status := PStatus.initiated,
                 detail := none,
                 manager_approved := if req.manager_approved = 0 then 0 else 1,
                 erp_synced := 0, erp_retry := 0, created_at := now, updated_at := now }],
            nextPaymentId := s.nextPaymentId + 1 })
  | _, _ => (.badRequest, s)

inductive ConfirmResult where
  | notFound
  | alreadyConfirmed (payment_id : Nat)
  | notAuthorized
  | confirmedOk (payment_id : Nat) (receipt_number : Nat × Nat)
deriving DecidableEq, Repr

/-- `generate_receipt_number` (lines 94–96). -/
def generate_receipt_number (p : Payment) : Nat × Nat := (p.id, p.created_at)

/-- `confirm_payment` (lines 217–250): 404 on unknown id;
`already_confirmed` no-op when the status is already `confirmed`; for
card/mobile modes require status `authorized`; otherwise set the status to
`confirmed`, create a receipt and enqueue an ERP-sync entry. -/
def confirm_payment (pid now : Nat) (s : PayState) : ConfirmResult × PayState :=
  match findPayment pid s.payments with
  | none => (.notFound, s)
  | some p =>
    if p.status = PStatus.confirmed then (.alreadyConfirmed p.id, s)
    else if (p.mode = "card" ∨ p.mode = "mobile") ∧ ¬p.status = PStatus.authorized then
      (.notAuthorized, s)
    else
      (.confirmedOk p.id (generate_receipt_number p),
        { s with
          payments := updatePayment pid
            (fun q => { q with status := PStatus.confirmed, updated_at := now })
            s.payments,
          receipts := s.receipts ++ [(⟨p.id, generate_receipt_number p, now⟩ : Receipt)],
          erpq := s.erpq ++ [(⟨p.id, 0, now⟩ : ERPEntry)] })

inductive AuthResult where
  | notFound
  | notRequiredForMode
  | invalidStateForAuthorization
  | managerApprovalRequired
  | authorizedOk (payment_id : Nat)
  | declined (reason : CCReason)
deriving DecidableEq, Repr

/-- `authorize_payment` (lines 179–214): 404 on unknown id; only card and
mobile modes are authorizable; only from status `initiated` or `failed`;
amounts above the manager threshold need prior approval; then run
`simple_card_check`, record a `PaymentAttempt`, and move the status to
`authorized` or `failed`. -/
def authorize_payment (pid : Nat) (card : CardInfo) (now : Nat) (threshold : ℚ)
    (s : PayState) : AuthResult × PayState :=
  match findPayment pid s.payments with
  | none => (.notFound, s)
  | some p =>
    if ¬(p.mode = "card" ∨ p.mode = "mobile") then (.notRequiredForMode, s)
    else if ¬(p.status = PStatus.initiated ∨ p.status = PStatus.failed) then
      (.invalidStateForAuthorization, s)
    else if threshold < p.amount ∧ p.manager_approved = 0 then
      (.managerApprovalRequired, s)
    else
      let res := simple_card_check card p.amount
      let s1 := { s with
        attempts := s.attempts ++
          [(⟨p.id, res.2, if res.1 then 1 else 0, now⟩ : PaymentAttempt)] }
      if res.1 then
        (.authorizedOk p.id,
          { s1 with
            payments := updatePayment pid
              (fun q => { q with status := PStatus.authorized, detail := some res.2 })
              s1.payments })
      else
        (.declined res.2,
          { s1 with
            payments := updatePayment pid
              (fun q => { q with status := PStatus.failed, detail := some res.2 })
              s1.payments })

inductive AdminResult where
  | notFound
  | approved (payment_id : Nat)
  | forcedSync (payment_id : Nat)
deriving DecidableEq, Repr

/-- `admin_approve` (lines 378–383): set `manager_approved = 1`. -/
def admin_approve (pid : Nat) (s : PayState) : AdminResult × PayState :=
  match findPayment pid s.payments with
  | none => (.notFound, s)
  | some _ =>
    (.approved pid,
      { s with
        payments := updatePayment pid (fun q => { q with manager_approved := 1 })
          s.payments })

/-- `admin_force_sync` (lines 360–372): mark the payment synced, bump the
retry counter, and delete its queue entries. -/
def admin_force_sync (pid : Nat) (s : PayState) : AdminResult × PayState :=
  match findPayment pid s.payments with
  | none => (.notFound, s)
  | some _ =>
    (.forcedSync pid,
      { s with
        payments := updatePayment pid
          (fun q => { q with erp_synced := 1, erp_retry := q.erp_retry + 1 }) s.payments,
        erpq := s.erpq.filter (fun e => e.payment_id != pid) })

/-! ### Claim C7: request parsing can raise an uncaught exception -/

/-- The exception class raised by Python `int()`/`float()` on malformed
input. -/
inductive PyExc where
  | valueError
deriving DecidableEq, Repr

/-- Strip leading and trailing spaces (Python `int()` ignores surrounding
whitespace; only the space character is modelled). -/
def pyStripSpaces (l : List Char) : List Char :=
  ((l.dropWhile (· == ' ')).reverse.dropWhile (· == ' ')).reverse

/-- Decimal value of a digit string. -/
def digitsVal (l : List Char) : Nat :=
  l.foldl (fun acc c => 10 * acc + charDigitVal c) 0

/-- Python `int(str)`: optional sign followed by a non-empty digit string
(underscore separators are not modelled); `none` models the raised
`ValueError`. -/
def pyInt (l : List Char) : Option Int :=
  match pyStripSpaces l with
  | '+' :: rest =>
    if rest ≠ [] ∧ ∀ c ∈ rest, c.isDigit then some (digitsVal rest : Int) else none
  | '-' :: rest =>
    if rest ≠ [] ∧ ∀ c ∈ rest, c.isDigit then some (-(digitsVal rest : Int)) else none
  | t => if t ≠ [] ∧ ∀ c ∈ t, c.isDigit then some (digitsVal t : Int) else none

/-- The request-parsing prefix of `list_payments` (lines 275–278):
`limit = int(request.args.get("limit", 100))`.  A `ValueError` raised by
`int()` propagates out of the handler — Flask turns it into an HTTP 500,
not a typed error result. -/
def list_payments_limit (arg : Option (List Char)) : Except PyExc Int :=
  match arg with
  | none => .ok 100
  | some a =>
    match pyInt a with
    | some n => .ok n
    | none => .error .valueError

/-- C7 evidence: `GET /payments?limit=abc` makes `int("abc")` raise an
uncaught `ValueError` (an uncontrolled 500), while well-formed input is
served; so not every malformed request yields a typed error result, which
contradicts the claim — the code, not the claim, is at fault here
(`app.py` has no handler-level exception guard for its `int()`/`float()`
conversions). -/
theorem c7_list_payments_limit_crash :
    list_payments_limit (some [ 'a', 'b', 'c' ]) = Except.error PyExc.valueError ∧
      list_payments_limit (some [ '2', '5' ]) = Except.ok 25 ∧
      list_payments_limit none = Except.ok 100 :=
  ⟨rfl, rfl, rfl⟩

/-! ### Claim C8: idempotence of `initiate_payment` -/

/-- Number of stored payments carrying a given `client_payment_id`. -/
def countCpid (c : String) : List Payment → Nat
  | [] => 0
  | p :: rest => (if p.client_payment_id = c then 1 else 0) + countCpid c rest

/-- Run a sequence of initiate calls (each with its wall-clock time). -/
def runInitiates : List (InitReq × Nat) → PayState → PayState
  | [], s => s
  | x :: xs, s => runInitiates xs (initiate_payment x.1 x.2 s).2

lemma findByCpid_none_count (c : String) :
    ∀ l, findByCpid c l = none → countCpid c l = 0 := by
  intro l
  induction l with
  | nil => intro _; rfl
  | cons p rest ih =>
    intro h
    simp only [findByCpid] at h
    by_cases hp : p.client_payment_id = c
    · rw [if_pos hp] at h
      cases h
    · rw [if_neg hp] at h
      simp [countCpid, hp, ih h]

lemma countCpid_append (c : String) :
    ∀ l1 l2, countCpid c (l1 ++ l2) = countCpid c l1 + countCpid c l2 := by
  intro l1 l2
  induction l1 with
  | nil => simp [countCpid]
  | cons p rest ih => simp [countCpid, ih, Nat.add_assoc]

lemma initiate_count_le (c : String) (req : InitReq) (t : Nat) (s : PayState)
    (hc : req.client_payment_id = some c)
    (h1 : countCpid c s.payments ≤ 1) :
    countCpid c ((initiate_payment req t s).2).payments ≤ 1 := by
  cases hm : req.mode with
  | none =>
    simp only [initiate_payment, hc, hm]
    exact h1
  | some m =>
    by_cases hv : c = "" ∨ req.amount ≤ 0 ∨ m = ""
    · simp only [initiate_payment, hc, hm, if_pos hv]
      exact h1
    · cases hf : findByCpid c s.payments with
      | some p =>
        simp only [initiate_payment, hc, hm, if_neg hv, hf]
        exact h1
      | none =>
        simp only [initiate_payment, hc, hm, if_neg hv, hf]
        have h0 : countCpid c s.payments = 0 := findByCpid_none_count c s.payments hf
        rw [countCpid_append]
        simp [countCpid, h0]

lemma runInitiates_count_le (c : String) :
    ∀ (reqs : List (InitReq × Nat)) (s : PayState),
      (∀ x ∈ reqs, x.1.client_payment_id = some c) →
      countCpid c s.payments ≤ 1 →
      countCpid c ((runInitiates reqs s).payments) ≤ 1 := by
  intro reqs
  induction reqs with
  | nil => intro s _ h1; exact h1
  | cons x xs ih =>
    intro s hall h1
    exact ih _ (fun y hy => hall y (List.mem_cons_of_mem x hy))
      (initiate_count_le c x.1 x.2 s (hall x (List.mem_cons_self x xs)) h1)

lemma initiate_exists_of_found (c m : String) (req : InitReq) (t : Nat) (s : PayState)
    (p : Payment) (hfound : findByCpid c s.payments = some p)
    (hc : req.client_payment_id = some c) (hcne : ¬c = "")
    (ha : ¬req.amount ≤ 0) (hm : req.mode = some m) (hmne : ¬m = "") :
    initiate_payment req t s = (.resExists p.id p.status, s) := by
  have hv : ¬(c = "" ∨ req.amount ≤ 0 ∨ m = "") := by
    rintro (h | h | h)
    · exact hcne h
    · exact ha h
    · exact hmne h
  simp only [initiate_payment, hc, hm, if_neg hv, hfound]

/-- Python truthiness of an optional string field: absent or empty. -/
def falsyOpt : Option String → Bool
  | none => true
  | some c => c == ""

/-- The input validation of `initiate_payment` (the negation of the code's
`not client_payment_id or amount <= 0 or not mode`): a present non-empty
`client_payment_id`, a positive amount and a present non-empty `mode`. -/
def validInit (req : InitReq) : Prop :=
  falsyOpt req.client_payment_id = false ∧ 0 < req.amount ∧
    falsyOpt req.mode = false

instance (req : InitReq) : Decidable (validInit req) :=
  decidable_of_iff (falsyOpt req.client_payment_id = false ∧ 0 < req.amount ∧
    falsyOpt req.mode = false) Iff.rfl

lemma initiate_invalid (req : InitReq) (t : Nat) (s : PayState)
    (h : ¬validInit req) :
    initiate_payment req t s = (.badRequest, s) := by
  cases hc : req.client_payment_id with
  | none => simp only [initiate_payment, hc]
  | some c =>
    cases hm : req.mode with
    | none => simp only [initiate_payment, hc, hm]
    | some m =>
      have hv : c = "" ∨ req.amount ≤ 0 ∨ m = "" := by
        by_cases hcne : c = ""
        · exact Or.inl hcne
        · by_cases ha : req.amount ≤ 0
          · exact Or.inr (Or.inl ha)
          · by_cases hme : m = ""
            · exact Or.inr (Or.inr hme)
            · exfalso
              apply h
              refine ⟨?_, not_le.mp ha, ?_⟩
              · rw [hc]
                simp [falsyOpt, hcne]
              · rw [hm]
                simp [falsyOpt, hme]
      simp only [initiate_payment, hc, hm, if_pos hv]

/-- Shared concrete scenario for C8. -/
def c8cpid : String := "cart-9-pay-1"

def c8mode : String := "cash"

def c8req1 : InitReq :=
  { client_payment_id := some c8cpid, amount := 5, currency := "TND",
    mode := some c8mode, manager_approved := 0 }

def c8req2 : InitReq :=
  { client_payment_id := some c8cpid, amount := 0, currency := "TND",
    mode := some c8mode, manager_approved := 0 }

def c8s0 : PayState := ⟨[], [], [], [], 1⟩

def c8s1 : PayState := (initiate_payment c8req1 0 c8s0).2

/-- The payment row the first call creates. -/
def c8p1 : Payment :=
  { id := 1, client_payment_id := c8cpid, amount := 5, currency := "TND",
    mode := c8mode, status := PStatus.initiated, detail := none, manager_approved := 0,
    erp_synced := 0, erp_retry := 0, created_at := 0, updated_at := 0 }

/-- C8 counterexample: a payment with `c8cpid` already exists, yet a second
initiate call sharing that `client_payment_id` but failing input validation
(amount 0) returns the 400 error, not `exists` — refuting "every call after
the first returns result `exists`". -/
theorem c8_counterexample :
    (findByCpid c8cpid c8s1.payments).isSome = true ∧
      initiate_payment c8req2 1 c8s1 = (.badRequest, c8s1) :=
  ⟨by decide, by decide⟩

/-- C8 (amended): `initiate_payment` creates at most one `Payment` row per
`client_payment_id` — any sequence of calls sharing it never brings its
stored row count above one; once a payment with that `client_payment_id`
exists, every call passing input validation (`validInit`: non-empty
`client_payment_id`, `amount > 0`, non-empty `mode` — the check the code
runs before the idempotency lookup) returns `exists` with the original
payment's id and status and leaves all stored state unchanged, while every
call failing validation returns the 400 validation error instead,
likewise leaving all stored state unchanged. -/
theorem c8_initiate_idempotent_amended (c m : String) (s : PayState) (p : Payment)
    (req req2 : InitReq) (t t2 : Nat) (reqs : List (InitReq × Nat))
    (hfound : findByCpid c s.payments = some p)
    (hc : req.client_payment_id = some c) (hcne : ¬c = "")
    (ha : ¬req.amount ≤ 0) (hm : req.mode = some m) (hmne : ¬m = "")
    (hall : ∀ x ∈ reqs, x.1.client_payment_id = some c)
    (hcount : countCpid c s.payments ≤ 1)
    (hinv2 : ¬validInit req2) :
    initiate_payment req t s = (.resExists p.id p.status, s) ∧
      countCpid c ((runInitiates reqs s).payments) ≤ 1 ∧
      initiate_payment req2 t2 s = (.badRequest, s) :=
  ⟨initiate_exists_of_found c m req t s p hfound hc hcne ha hm hmne,
    runInitiates_count_le c reqs s hall hcount,
    initiate_invalid req2 t2 s hinv2⟩

theorem c8_initiate_idempotent_amended_witness :
    findByCpid c8cpid c8s1.payments = some c8p1 ∧
      c8req1.client_payment_id = some c8cpid ∧ ¬c8cpid = "" ∧
      ¬c8req1.amount ≤ 0 ∧ c8req1.mode = some c8mode ∧ ¬c8mode = "" ∧
      (∀ x ∈ [(c8req2, 2)], x.1.client_payment_id = some c8cpid) ∧
      countCpid c8cpid c8s1.payments ≤ 1 ∧ ¬validInit c8req2 ∧
      (initiate_payment c8req1 3 c8s1 = (.resExists 1 PStatus.initiated, c8s1) ∧
        countCpid c8cpid ((runInitiates [(c8req2, 2)] c8s1).payments) ≤ 1 ∧
        initiate_payment c8req2 4 c8s1 = (.badRequest, c8s1)) :=
  ⟨by decide, rfl, by decide, by decide, rfl, by decide, by decide, by decide, by decide,
    c8_initiate_idempotent_amended c8cpid c8mode c8s1 c8p1 c8req1 c8req2 3 4
      [(c8req2, 2)] (by decide) rfl (by decide) (by decide) rfl (by decide)
      (by decide) (by decide) (by decide)⟩

/-! ### Claim C9: `confirmed` is terminal -/

/-- C9: once a payment's status is `confirmed` it never changes again —
a repeated `confirm_payment` is an `already_confirmed` no-op that leaves
the whole state unchanged (so no second `Receipt` or `ERPQueue` entry is
created), `authorize_payment` refuses (the status is not `initiated` or
`failed`, or the mode is not authorizable), and the admin endpoints touch
only `manager_approved`/`erp_synced`/`erp_retry`, never `status`. -/
theorem c9_confirmed_terminal (s : PayState) (pid now : Nat) (p : Payment)
    (card : CardInfo) (threshold : ℚ)
    (hp : findPayment pid s.payments = some p) (hc : p.status = PStatus.confirmed) :
    confirm_payment pid now s = (.alreadyConfirmed p.id, s) ∧
      statusOf (authorize_payment pid card now threshold s).2 pid =
        some PStatus.confirmed ∧
      statusOf (admin_approve pid s).2 pid = some PStatus.confirmed ∧
      statusOf (admin_force_sync pid s).2 pid = some PStatus.confirmed := by
  refine ⟨?_, ?_, ?_, ?_⟩
  · simp [confirm_payment, hp, hc]
  · by_cases hmode : p.mode = "card" ∨ p.mode = "mobile"
    · simp [authorize_payment, hp, hmode, hc, statusOf]
    · simp [authorize_payment, hp, hmode, hc, statusOf]
  · have hupd := findPayment_updatePayment pid
      (fun q => { q with manager_approved := 1 }) (fun q => rfl) s.payments
    simp [admin_approve, hp, statusOf, hupd, hc]
  · have hupd := findPayment_updatePayment pid
      (fun q => { q with erp_synced := 1, erp_retry := q.erp_retry + 1 })
      (fun q => rfl) s.payments
    simp [admin_force_sync, hp, statusOf, hupd, hc]

/-- Shared concrete scenario for C9. -/
def c9p : Payment :=
  { id := 1, client_payment_id := "cp-1", amount := 5, currency := "TND",
    mode := "card", status := PStatus.confirmed, detail := none, manager_approved := 0,
    erp_synced := 0, erp_retry := 0, created_at := 0, updated_at := 0 }

def c9s : PayState := ⟨[c9p], [], [], [], 2⟩

def c9card : CardInfo := ⟨[ '4', '2' ], [ '1', '2', '3' ], [ '1', '2', '/' ]⟩

theorem c9_confirmed_terminal_witness :
    findPayment 1 c9s.payments = some c9p ∧ c9p.status = PStatus.confirmed ∧
      (confirm_payment 1 3 c9s = (.alreadyConfirmed 1, c9s) ∧
        statusOf (authorize_payment 1 c9card 3 1000 c9s).2 1 = some PStatus.confirmed ∧
        statusOf (admin_approve 1 c9s).2 1 = some PStatus.confirmed ∧
        statusOf (admin_force_sync 1 c9s).2 1 = some PStatus.confirmed) :=
  ⟨rfl, rfl, c9_confirmed_terminal c9s 1 3 c9p c9card 1000 rfl rfl⟩

end POSERP
